import Mathlib

/-
Verification of the advanced-rag example ingestion pipeline
(pipelines/example/pipeline.py) against its design specification.

The development shallowly embeds the parts of the pipeline with nontrivial
control flow: the docling conversion poll loop and result normalization
(convert_document), the batched upsert driver (embed_and_store), the
chunk-plan sample truncation (generate_plan), the search-hit extraction
(test_query), and the stage dependency graph declared by ingest_pipeline.
-/

namespace RagPipeline

/-- JSON-like values exchanged with the HTTP services. Numeric payloads are
modelled as integers; none of the verified properties involve fractional
numbers. Objects are association lists in which the first binding of a key is
its value, matching lookup on the unique-key dicts produced by json parsing. -/
inductive Json where
  | null
  | bool (b : Bool)
  | num (n : Int)
  | str (s : String)
  | arr (elems : List Json)
  | obj (fields : List (String × Json))

/-- Lookup of a key in an object field list, first binding wins. -/
def jlookup (k : String) : List (String × Json) → Option Json
  | [] => none
  | (key, v) :: rest => if key = k then some v else jlookup k rest

/-- Python truthiness of a json value: None, False, zero, the empty string,
the empty list and the empty dict are falsy, everything else is truthy. -/
def truthy : Json → Bool
  | Json.null => false
  | Json.bool b => b
  | Json.num n => decide (n ≠ 0)
  | Json.str s => decide (s ≠ "")
  | Json.arr [] => false
  | Json.arr (_ :: _) => true
  | Json.obj [] => false
  | Json.obj (_ :: _) => true

/-- The Python `or` operator on values: the left operand if truthy, otherwise
the right operand. -/
def por (a b : Json) : Json := if truthy a then a else b

/-- Python `d.get(k)`: the value at the key, or None when absent. -/
def dictGet (fields : List (String × Json)) (k : String) : Json :=
  (jlookup k fields).getD Json.null

/-- Python `d.get(k, default)`. -/
def dictGetD (fields : List (String × Json)) (k : String) (d : Json) : Json :=
  (jlookup k fields).getD d

/-- String value of a key, or the given default when the key is absent or the
value is not a string. -/
def getStrD (fields : List (String × Json)) (k d : String) : String :=
  match jlookup k fields with
  | some (Json.str s) => s
  | _ => d

/-- The key is either absent or bound to a string. -/
def isStrOrAbsent (fields : List (String × Json)) (k : String) : Bool :=
  match jlookup k fields with
  | none => true
  | some (Json.str _) => true
  | some _ => false

/-- The document key, when present, holds an object whose md key, when
present, holds a string. -/
def documentOk (fields : List (String × Json)) : Bool :=
  match jlookup ("document") fields with
  | none => true
  | some (Json.obj dfields) => isStrOrAbsent dfields ("md")
  | some _ => false

/-- The value is an object (a Python mapping). -/
def isObj : Json → Bool
  | Json.obj _ => true
  | _ => false

mutual

/-- Python repr of a json value (strings that need no escaping render between
single quotes). -/
def pyRepr : Json → String
  | Json.null => "None"
  | Json.bool true => "True"
  | Json.bool false => "False"
  | Json.num n => toString n
  | Json.str s => "\x27" ++ s ++ "\x27"
  | Json.arr elems => "[" ++ String.intercalate (", ") (pyReprList elems) ++ "]"
  | Json.obj fields => "\x7b" ++ String.intercalate (", ") (pyReprFields fields) ++ "\x7d"

/-- repr of each element of a list. -/
def pyReprList : List Json → List String
  | [] => []
  | x :: xs => pyRepr x :: pyReprList xs

/-- repr of each key-value pair of a dict. -/
def pyReprFields : List (String × Json) → List String
  | [] => []
  | (k, v) :: xs => ("\x27" ++ k ++ "\x27: " ++ pyRepr v) :: pyReprFields xs

end

/-- Python str of a json value: a string renders as itself, everything else
as its repr. -/
def pyStr : Json → String
  | Json.str s => s
  | other => pyRepr other

/-- The or-chain of pipeline.py line 93:
result.get("md") or result.get("markdown") or result.get("content", ""). -/
def rawMarkdownField (fields : List (String × Json)) : Json :=
  por (dictGet fields ("md"))
    (por (dictGet fields ("markdown")) (dictGetD fields ("content") (Json.str "")))

/-- Markdown extraction from the conversion result payload, pipeline.py lines
90-97. A mapping payload is searched with the or-chain, then, if that value
is falsy and a document key exists, with document.get("md", "") — which
raises (modelled as an error) when the document value is not a mapping. A
non-mapping payload is rendered with str. -/
def extractMarkdown (result : Json) : Except Unit Json :=
  match result with
  | Json.obj fields =>
    if truthy (rawMarkdownField fields) then Except.ok (rawMarkdownField fields)
    else
      match jlookup ("document") fields with
      | some (Json.obj dfields) => Except.ok (dictGetD dfields ("md") (Json.str ""))
      | some _ => Except.error ()
      | none => Except.ok (rawMarkdownField fields)
  | other => Except.ok (Json.str (pyStr other))

/-- The nested document.md candidate of the fallback search, as a string. -/
def docMdField (fields : List (String × Json)) : String :=
  match jlookup ("document") fields with
  | some (Json.obj dfields) => getStrD dfields ("md") ("")
  | _ => ""

/-- Spec-side definition, following the words of section 4.3 of the design:
an ordered fallback search over the candidate keys md, markdown, content and
the nested document.md, returning the first non-empty text, and the empty
string when no candidate yields non-empty text. -/
def orderedFallback (fields : List (String × Json)) : String :=
  (([getStrD fields ("md") (""), getStrD fields ("markdown") (""),
     getStrD fields ("content") (""), docMdField fields]).find?
    (fun s => !(s == ""))).getD ""

/-- Outcome of the docling status-poll loop, pipeline.py lines 64-80. Each
constructor records how many status requests were issued and the elapsed
model time in seconds at the moment the loop ended. -/
inductive PollOutcome where
  | success (polls : Nat) (elapsed : Nat)
  | failed (polls : Nat) (elapsed : Nat)
  | timedOut (polls : Nat) (elapsed : Nat)
deriving DecidableEq

/-- Number of status requests issued by the loop. -/
def PollOutcome.polls : PollOutcome → Nat
  | PollOutcome.success k _ => k
  | PollOutcome.failed k _ => k
  | PollOutcome.timedOut k _ => k

/-- Elapsed model time when the loop ended. -/
def PollOutcome.elapsed : PollOutcome → Nat
  | PollOutcome.success _ t => t
  | PollOutcome.failed _ t => t
  | PollOutcome.timedOut _ t => t

/-- The while loop of pipeline.py lines 67-80. statuses j is the task_status
string carried by the response to the j-th poll, as the code reads it with
json().get("task_status", "unknown"). Polls are modelled as instantaneous;
time advances by pollInterval at each time.sleep(5). The fuel argument only
bounds the recursion depth: with a positive pollInterval a fuel of
maxWait + 1 is never exhausted before the wall-clock guard t < maxWait turns
false, and when fuel does run out the loop is already past the budget, so the
result coincides with the timeout exit of the while-else clause. The lemma
awaitLoop_fuel_stable below makes this independence from fuel precise. -/
def awaitLoop (statuses : Nat → String) (pollInterval maxWait : Nat) :
    Nat → Nat → Nat → PollOutcome
  | 0, j, t => PollOutcome.timedOut j t
  | fuel + 1, j, t =>
    if t < maxWait then
      if statuses j = "success" then PollOutcome.success (j + 1) t
      else if statuses j = "failure" then PollOutcome.failed (j + 1) t
      else awaitLoop statuses pollInterval maxWait fuel (j + 1) (t + pollInterval)
    else PollOutcome.timedOut j t

/-- awaitCompletion of the specification: run the poll loop from time zero. -/
def awaitCompletion (statuses : Nat → String) (pollInterval maxWait : Nat) : PollOutcome :=
  awaitLoop statuses pollInterval maxWait (maxWait + 1) 0 0

/-- The poll interval hard-coded in time.sleep(5). -/
def poll_interval : Nat := 5

/-- The wait budget hard-coded as max_wait = 300. -/
def max_wait : Nat := 300

/-- Final outcome of the convert_document component. -/
inductive ConvertOutcome where
  | ok (markdown : Json)
  | extractionError
  | conversionFailed
  | timedOut

/-- Observable behaviour of one run of convert_document after submission:
how many status requests were issued, how many times the result endpoint was
fetched, and the final outcome. -/
structure ConvertRun where
  statusRequests : Nat
  resultFetches : Nat
  outcome : ConvertOutcome

/-- convert_document, pipeline.py lines 64-105, from the point where the task
has been submitted: poll until a terminal status or the budget runs out; on
success fetch the result payload once and normalize it; on failure or timeout
raise without fetching. resultPayload is the body the result endpoint would
return. -/
def convertDocument (statuses : Nat → String) (resultPayload : Json)
    (pollInterval maxWait : Nat) : ConvertRun :=
  match awaitCompletion statuses pollInterval maxWait with
  | PollOutcome.success k _ =>
    match extractMarkdown resultPayload with
    | Except.ok md => ⟨k, 1, ConvertOutcome.ok md⟩
    | Except.error _ => ⟨k, 1, ConvertOutcome.extractionError⟩
  | PollOutcome.failed k _ => ⟨k, 0, ConvertOutcome.conversionFailed⟩
  | PollOutcome.timedOut k _ => ⟨k, 0, ConvertOutcome.timedOut⟩

/-- The batch size hard-coded in embed_and_store. -/
def batch_size : Nat := 50

/-- The batch partition produced by the loop of pipeline.py lines 222-223:
for i in range(0, len(documents), batch_size), the slice
documents[i : i + batch_size]. A zero batch size raises in Python (range with
step 0), modelled as no batches; all theorems assume a positive batch size. -/
def upsertBatches {α : Type} : List α → Nat → List (List α)
  | _, 0 => []
  | [], _ + 1 => []
  | x :: xs, b + 1 =>
    (x :: xs).take (b + 1) :: upsertBatches ((x :: xs).drop (b + 1)) (b + 1)
termination_by docs _ => docs.length
decreasing_by simp [List.length_drop]; omega

/-- Trace of one embed_and_store upsert phase: which batches were actually
transmitted, in order, and the final result — the accumulated inserted count,
or the error of the batch request that failed. -/
structure UpsertRun (α ε : Type) where
  sent : List (List α)
  result : Except ε Nat

/-- The sequential upsert loop of pipeline.py lines 222-233. reply i is the
gateway behaviour on the i-th request: an error models a failed request
(raise_for_status aborting the component), and a successful reply carries the
optional inserted count of the response, defaulted by the code to the batch
length via result.get("inserted", len(batch)). -/
def runUpserts {α ε : Type} (reply : Nat → Except ε (Option Nat)) :
    List (List α) → Nat → Nat → UpsertRun α ε
  | [], _, acc => ⟨[], Except.ok acc⟩
  | b :: bs, idx, acc =>
    match reply idx with
    | Except.error e => ⟨[b], Except.error e⟩
    | Except.ok r =>
      ⟨b :: (runUpserts reply bs (idx + 1) (acc + r.getD b.length)).sent,
       (runUpserts reply bs (idx + 1) (acc + r.getD b.length)).result⟩

/-- A reply is a successful request. -/
def isOkReply {ε : Type} (r : Except ε (Option Nat)) : Bool :=
  match r with
  | Except.ok _ => true
  | Except.error _ => false

/-- Body of the plan request built by generate_plan. -/
structure PlanRequest where
  text : List Char
  file_name : String
  mime_type : String
deriving DecidableEq

/-- The sample truncation of pipeline.py line 125:
markdown_text[:8000] if len(markdown_text) > 8000 else markdown_text.
Text is modelled as the sequence of its characters. -/
def planSample (markdown_text : List Char) : List Char :=
  if markdown_text.length > 8000 then markdown_text.take 8000 else markdown_text

/-- The request generate_plan transmits to the plan service, pipeline.py
lines 125-132: the truncated sample plus the metadata block. -/
def generate_plan_request (markdown_text : List Char) (file_name : String) : PlanRequest :=
  ⟨planSample markdown_text, file_name, "text/markdown"⟩

/-- The five pipeline stages declared by ingest_pipeline. -/
inductive Stage where
  | convert
  | plan
  | chunk
  | store
  | query
deriving DecidableEq

/-- Data dependencies of each stage, read off the task wiring of
ingest_pipeline, pipeline.py lines 313-348: plan consumes the convert output;
chunk consumes the convert output and the plan output; store consumes the
chunk output; query consumes no task output. -/
def dataDeps : Stage → List Stage
  | Stage.convert => []
  | Stage.plan => [Stage.convert]
  | Stage.chunk => [Stage.convert, Stage.plan]
  | Stage.store => [Stage.chunk]
  | Stage.query => []

/-- Explicit ordering edges: the single query_task.after(store_task) call of
pipeline.py line 348. -/
def explicitAfter : Stage → List Stage
  | Stage.query => [Stage.store]
  | _ => []

/-- All ordering constraints of a stage: data dependencies plus explicit
after edges. -/
def deps (s : Stage) : List Stage := dataDeps s ++ explicitAfter s

/-- The five stages. -/
def allStages : List Stage :=
  [Stage.convert, Stage.plan, Stage.chunk, Stage.store, Stage.query]

/-- An execution order of one pipeline run: a linearization of the five
stages in which every stage comes after each of its dependencies. -/
def validSchedule (order : List Stage) : Bool :=
  decide (List.Perm order allStages) &&
    allStages.all (fun s => (deps s).all (fun d => decide (order.indexOf d < order.indexOf s)))

/-- The search request body built by test_query, pipeline.py lines 257-263. -/
structure SearchRequest where
  query : String
  collection : String
  top_k : Nat
deriving DecidableEq

/-- Hit extraction of pipeline.py line 269: result.get("hits", []). A missing
hits key defaults to the empty list; a non-list hits value or a non-mapping
response makes the component raise, modelled as none. -/
def searchHits (result : Json) : Option (List Json) :=
  match result with
  | Json.obj fields =>
    match jlookup ("hits") fields with
    | some (Json.arr elems) => some elems
    | none => some []
    | some _ => none
  | _ => none

/-- The test_query component: send the query, the collection and top_k to the
gateway and return the hits of its response, unmodified. gateway models the
search endpoint as a function from request body to response body. -/
def test_query (gateway : SearchRequest → Json) (query collection : String)
    (top_k : Nat) : Option (List Json) :=
  searchHits (gateway ⟨query, collection, top_k⟩)

/-! Theorems. -/

theorem awaitLoop_fuel_stable (s : Nat → String) (i mw : Nat) :
    ∀ f1 f2 j t, mw ≤ t + f1 * i → mw ≤ t + f2 * i →
      awaitLoop s i mw f1 j t = awaitLoop s i mw f2 j t := by
  intro f1
  induction f1 with
  | zero =>
    intro f2 j t h1 h2
    have ht : ¬ t < mw := by omega
    cases f2 with
    | zero => rfl
    | succ f => simp only [awaitLoop, if_neg ht]
  | succ f ih =>
    intro f2 j t h1 h2
    cases f2 with
    | zero =>
      have ht : ¬ t < mw := by omega
      simp only [awaitLoop, if_neg ht]
    | succ f2 =>
      simp only [awaitLoop]
      by_cases ht : t < mw
      · simp only [if_pos ht]
        by_cases hs : s j = "success"
        · simp only [if_pos hs]
        · by_cases hf : s j = "failure"
          · simp only [if_neg hs, if_pos hf]
          · simp only [if_neg hs, if_neg hf]
            have e1 : t + (f + 1) * i = (t + i) + f * i := by ring
            have e2 : t + (f2 + 1) * i = (t + i) + f2 * i := by ring
            rw [e1] at h1
            rw [e2] at h2
            exact ih f2 (j + 1) (t + i) h1 h2
      · simp only [if_neg ht]

theorem awaitLoop_skip (s : Nat → String) (i mw : Nat) :
    ∀ (d fuel j t : Nat),
      (∀ x, x < d → s (j + x) ≠ "success" ∧ s (j + x) ≠ "failure") →
      (∀ x, x < d → t + x * i < mw) →
      awaitLoop s i mw (fuel + d) j t = awaitLoop s i mw fuel (j + d) (t + d * i) := by
  intro d
  induction d with
  | zero => intro fuel j t _ _; simp
  | succ d ih =>
    intro fuel j t hnt hbud
    have ht : t < mw := by
      have h := hbud 0 (by omega)
      simpa using h
    have hs := hnt 0 (by omega)
    rw [show j + 0 = j from rfl] at hs
    show awaitLoop s i mw ((fuel + d) + 1) j t = _
    simp only [awaitLoop, if_pos ht, if_neg hs.1, if_neg hs.2]
    have hnt2 : ∀ x, x < d → s ((j + 1) + x) ≠ "success" ∧ s ((j + 1) + x) ≠ "failure" := by
      intro x hx
      have h := hnt (x + 1) (by omega)
      have e : j + (x + 1) = (j + 1) + x := by omega
      rw [e] at h
      exact h
    have hbud2 : ∀ x, x < d → (t + i) + x * i < mw := by
      intro x hx
      have h := hbud (x + 1) (by omega)
      have e : t + (x + 1) * i = (t + i) + x * i := by ring
      rw [e] at h
      exact h
    have hrec := ih fuel (j + 1) (t + i) hnt2 hbud2
    have ej : (j + 1) + d = j + (d + 1) := by omega
    have et : (t + i) + d * i = t + (d + 1) * i := by ring
    rw [ej, et] at hrec
    exact hrec

theorem awaitLoop_polls_ge (s : Nat → String) (i mw : Nat) :
    ∀ fuel j t, j ≤ (awaitLoop s i mw fuel j t).polls := by
  intro fuel
  induction fuel with
  | zero => intro j t; simp [awaitLoop, PollOutcome.polls]
  | succ f ih =>
    intro j t
    simp only [awaitLoop]
    by_cases ht : t < mw
    · simp only [if_pos ht]
      by_cases hs : s j = "success"
      · simp only [if_pos hs, PollOutcome.polls]; omega
      · by_cases hf : s j = "failure"
        · simp only [if_neg hs, if_pos hf, PollOutcome.polls]; omega
        · simp only [if_neg hs, if_neg hf]
          have h := ih (j + 1) (t + i)
          omega
    · simp only [if_neg ht, PollOutcome.polls]; omega

theorem awaitLoop_polls_le (s : Nat → String) (i mw : Nat) :
    ∀ fuel j t, (awaitLoop s i mw fuel j t).polls ≤ j + fuel := by
  intro fuel
  induction fuel with
  | zero => intro j t; simp [awaitLoop, PollOutcome.polls]
  | succ f ih =>
    intro j t
    simp only [awaitLoop]
    by_cases ht : t < mw
    · simp only [if_pos ht]
      by_cases hs : s j = "success"
      · simp only [if_pos hs, PollOutcome.polls]; omega
      · by_cases hf : s j = "failure"
        · simp only [if_neg hs, if_pos hf, PollOutcome.polls]; omega
        · simp only [if_neg hs, if_neg hf]
          have h := ih (j + 1) (t + i)
          omega
    · simp only [if_neg ht, PollOutcome.polls]; omega

theorem awaitLoop_elapsed_lt (s : Nat → String) (i mw : Nat) :
    ∀ fuel j t, t < mw + i → (awaitLoop s i mw fuel j t).elapsed < mw + i := by
  intro fuel
  induction fuel with
  | zero => intro j t h; simpa [awaitLoop, PollOutcome.elapsed] using h
  | succ f ih =>
    intro j t h
    simp only [awaitLoop]
    by_cases ht : t < mw
    · simp only [if_pos ht]
      by_cases hs : s j = "success"
      · simpa [hs, PollOutcome.elapsed] using h
      · by_cases hf : s j = "failure"
        · simp only [if_neg hs, if_pos hf, PollOutcome.elapsed]; omega
        · simp only [if_neg hs, if_neg hf]
          exact ih (j + 1) (t + i) (by omega)
    · simp only [if_neg ht, PollOutcome.elapsed]; omega

theorem convertDocument_statusRequests (statuses : Nat → String) (payload : Json)
    (i mw : Nat) :
    (convertDocument statuses payload i mw).statusRequests
      = (awaitCompletion statuses i mw).polls := by
  unfold convertDocument
  cases h : awaitCompletion statuses i mw with
  | success k t =>
    cases hmd : extractMarkdown payload <;> simp [hmd, PollOutcome.polls]
  | failed k t => simp [PollOutcome.polls]
  | timedOut k t => simp [PollOutcome.polls]

/-- C5: for every poll-status sequence the wait loop terminates after a
bounded number of status requests, and the elapsed wall-clock time at
termination is at most maxWait + pollInterval, whatever the statuses do
(success, failure, or never reaching a terminal status). -/
theorem awaitCompletion_terminates_within_budget (statuses : Nat → String)
    (pollInterval maxWait : Nat) (hp : 0 < pollInterval) :
    (awaitCompletion statuses pollInterval maxWait).elapsed ≤ maxWait + pollInterval ∧
    (awaitCompletion statuses pollInterval maxWait).polls ≤ maxWait + 1 := by
  constructor
  · exact le_of_lt
      (awaitLoop_elapsed_lt statuses pollInterval maxWait (maxWait + 1) 0 0 (by omega))
  · unfold awaitCompletion
    have h := awaitLoop_polls_le statuses pollInterval maxWait (maxWait + 1) 0 0
    omega

/-- Witness for C5 at the constants of the code and an everlastingly pending
status sequence. -/
theorem awaitCompletion_terminates_within_budget_witness :
    0 < poll_interval ∧
    ((awaitCompletion (fun _ => "pending") poll_interval max_wait).elapsed
        ≤ max_wait + poll_interval ∧
     (awaitCompletion (fun _ => "pending") poll_interval max_wait).polls
        ≤ max_wait + 1) :=
  ⟨by decide,
   awaitCompletion_terminates_within_budget (fun _ => "pending") poll_interval max_wait
     (by decide)⟩

/-- C1: the first terminal status decides the outcome of the poll loop. With
polls one to k-1 non-terminal and poll k inside the wait budget: if poll k
reports success the loop exits after exactly k status requests and the result
is fetched exactly once; if poll k reports failure the component fails after
exactly k status requests without fetching the result; and any other status
at poll k does not abort the run — while budget remains, the loop goes on to
a further poll. -/
theorem convert_first_terminal_decides (statuses : Nat → String) (payload : Json)
    (pollInterval maxWait k : Nat) (hp : 0 < pollInterval) (hk : 1 ≤ k)
    (hpre : ∀ x, x < k - 1 → statuses x ≠ "success" ∧ statuses x ≠ "failure")
    (hbudget : (k - 1) * pollInterval < maxWait) :
    (statuses (k - 1) = "success" →
      (convertDocument statuses payload pollInterval maxWait).statusRequests = k ∧
      (convertDocument statuses payload pollInterval maxWait).resultFetches = 1) ∧
    (statuses (k - 1) = "failure" →
      (convertDocument statuses payload pollInterval maxWait).statusRequests = k ∧
      (convertDocument statuses payload pollInterval maxWait).resultFetches = 0 ∧
      (convertDocument statuses payload pollInterval maxWait).outcome
        = ConvertOutcome.conversionFailed) ∧
    ((statuses (k - 1) ≠ "success" ∧ statuses (k - 1) ≠ "failure") →
      k * pollInterval < maxWait →
      k + 1 ≤ (convertDocument statuses payload pollInterval maxWait).statusRequests) := by
  have hk1 : k - 1 ≤ maxWait := by
    have h := Nat.le_mul_of_pos_right (k - 1) hp
    omega
  have hfuel : maxWait + 1 = (maxWait + 1 - (k - 1)) + (k - 1) := by omega
  have hbudAll : ∀ x, x < k - 1 → 0 + x * pollInterval < maxWait := by
    intro x hx
    have h : x * pollInterval ≤ (k - 1) * pollInterval :=
      Nat.mul_le_mul_right pollInterval (by omega)
    omega
  have hpre0 : ∀ x, x < k - 1 → statuses (0 + x) ≠ "success" ∧ statuses (0 + x) ≠ "failure" := by
    intro x hx
    simpa using hpre x hx
  have hskip := awaitLoop_skip statuses pollInterval maxWait (k - 1)
    (maxWait + 1 - (k - 1)) 0 0 hpre0 hbudAll
  have hcomp : awaitCompletion statuses pollInterval maxWait
      = awaitLoop statuses pollInterval maxWait (maxWait + 1 - (k - 1)) (k - 1)
          ((k - 1) * pollInterval) := by
    unfold awaitCompletion
    rw [hfuel, hskip]
    simp
  obtain ⟨f, hf⟩ : ∃ f, maxWait + 1 - (k - 1) = f + 1 :=
    ⟨maxWait - (k - 1), by omega⟩
  have hek : (k - 1) + 1 = k := by omega
  refine ⟨?_, ?_, ?_⟩
  · intro hsucc
    have hrun : awaitCompletion statuses pollInterval maxWait
        = PollOutcome.success k ((k - 1) * pollInterval) := by
      rw [hcomp, hf]
      simp only [awaitLoop, if_pos hbudget, if_pos hsucc, hek]
    cases hmd : extractMarkdown payload <;>
      simp [convertDocument, hrun, hmd]
  · intro hfail
    have hns : ¬ statuses (k - 1) = "success" := by simp [hfail]
    have hrun : awaitCompletion statuses pollInterval maxWait
        = PollOutcome.failed k ((k - 1) * pollInterval) := by
      rw [hcomp, hf]
      simp only [awaitLoop, if_pos hbudget, if_neg hns, if_pos hfail, hek]
    simp [convertDocument, hrun]
  · intro hnt hbud2
    have hk2 : k ≤ maxWait := by
      have h := Nat.le_mul_of_pos_right k hp
      omega
    have hfuel2 : maxWait + 1 = (maxWait + 1 - k) + k := by omega
    have hpreK : ∀ x, x < k → statuses (0 + x) ≠ "success" ∧ statuses (0 + x) ≠ "failure" := by
      intro x hx
      rcases Nat.lt_or_ge x (k - 1) with hlt | hge
      · simpa using hpre x hlt
      · have hx1 : x = k - 1 := by omega
        subst hx1
        simpa using hnt
    have hbudK : ∀ x, x < k → 0 + x * pollInterval < maxWait := by
      intro x hx
      have h : x * pollInterval ≤ (k - 1) * pollInterval :=
        Nat.mul_le_mul_right pollInterval (by omega)
      omega
    have hskip2 := awaitLoop_skip statuses pollInterval maxWait k
      (maxWait + 1 - k) 0 0 hpreK hbudK
    have hcomp2 : awaitCompletion statuses pollInterval maxWait
        = awaitLoop statuses pollInterval maxWait (maxWait + 1 - k) k
            (k * pollInterval) := by
      unfold awaitCompletion
      rw [hfuel2, hskip2]
      simp
    obtain ⟨f2, hf2⟩ : ∃ f2, maxWait + 1 - k = f2 + 1 :=
      ⟨maxWait - k, by omega⟩
    rw [convertDocument_statusRequests, hcomp2, hf2]
    simp only [awaitLoop, if_pos hbud2]
    by_cases hs2 : statuses k = "success"
    · simp only [if_pos hs2, PollOutcome.polls]; omega
    · by_cases hf3 : statuses k = "failure"
      · simp only [if_neg hs2, if_pos hf3, PollOutcome.polls]; omega
      · simp only [if_neg hs2, if_neg hf3]
        exact awaitLoop_polls_ge statuses pollInterval maxWait f2 (k + 1)
          (k * pollInterval + pollInterval)

/-- Witness for C1 at the poll sequences of the specification examples:
pending, pending, success gives three status requests and one result fetch;
pending, failure fails after the second status request with no fetch. -/
theorem convert_first_terminal_decides_witness :
    ((convertDocument (fun j => if j < 2 then ("pending") else ("success"))
        (Json.obj []) 5 300).statusRequests = 3 ∧
     (convertDocument (fun j => if j < 2 then ("pending") else ("success"))
        (Json.obj []) 5 300).resultFetches = 1) ∧
    ((convertDocument (fun j => if j < 1 then ("pending") else ("failure"))
        (Json.obj []) 5 300).statusRequests = 2 ∧
     (convertDocument (fun j => if j < 1 then ("pending") else ("failure"))
        (Json.obj []) 5 300).resultFetches = 0 ∧
     (convertDocument (fun j => if j < 1 then ("pending") else ("failure"))
        (Json.obj []) 5 300).outcome = ConvertOutcome.conversionFailed) :=
  ⟨(convert_first_terminal_decides (fun j => if j < 2 then ("pending") else ("success"))
      (Json.obj []) 5 300 3 (by decide) (by decide) (by decide) (by decide)).1 (by decide),
   (convert_first_terminal_decides (fun j => if j < 1 then ("pending") else ("failure"))
      (Json.obj []) 5 300 2 (by decide) (by decide) (by decide) (by decide)).2.1 (by decide)⟩

theorem upsertBatches_nil {α : Type} (B : Nat) : upsertBatches ([] : List α) B = [] := by
  cases B <;> simp [upsertBatches]

theorem ceil_div_step (len B : Nat) (hB : 0 < B) (hlen : 0 < len) :
    (len - B + B - 1) / B + 1 = (len + B - 1) / B := by
  rcases le_or_lt len B with hle | hlt
  · have e1 : len - B = 0 := by omega
    rw [e1]
    have h0 : (0 + B - 1) / B = 0 := Nat.div_eq_of_lt (by omega)
    have h1 : (len + B - 1) / B = 1 := Nat.div_eq_of_lt_le (by omega) (by omega)
    rw [h0, h1]
  · have e1 : len - B + B - 1 = len - 1 := by omega
    have e2 : len + B - 1 = (len - 1) + B := by omega
    rw [e1, e2, Nat.add_div_right _ hB]

theorem upsertBatches_length {α : Type} (B : Nat) (hB : 0 < B) :
    ∀ (n : Nat) (docs : List α), docs.length ≤ n →
      (upsertBatches docs B).length = (docs.length + B - 1) / B := by
  intro n
  induction n with
  | zero =>
    intro docs h
    have hnil : docs = [] := List.eq_nil_of_length_eq_zero (by omega)
    subst hnil
    rw [upsertBatches_nil]
    have h0 : (0 + B - 1) / B = 0 := Nat.div_eq_of_lt (by omega)
    simpa using h0.symm
  | succ n ih =>
    intro docs h
    obtain ⟨b, rfl⟩ : ∃ b, B = b + 1 := ⟨B - 1, by omega⟩
    cases docs with
    | nil =>
      rw [upsertBatches_nil]
      have h0 : (0 + (b + 1) - 1) / (b + 1) = 0 := Nat.div_eq_of_lt (by omega)
      simpa using h0.symm
    | cons x xs =>
      simp only [upsertBatches, List.length_cons]
      rw [ih ((x :: xs).drop (b + 1)) (by simp only [List.length_drop, List.length_cons]; simp only [List.length_cons] at h; omega)]
      rw [List.length_drop]
      exact ceil_div_step (x :: xs).length (b + 1) hB (by simp)

theorem upsertBatches_flatten {α : Type} (B : Nat) (hB : 0 < B) :
    ∀ (n : Nat) (docs : List α), docs.length ≤ n →
      (upsertBatches docs B).flatten = docs := by
  intro n
  induction n with
  | zero =>
    intro docs h
    have hnil : docs = [] := List.eq_nil_of_length_eq_zero (by omega)
    subst hnil
    rw [upsertBatches_nil]
    rfl
  | succ n ih =>
    intro docs h
    obtain ⟨b, rfl⟩ : ∃ b, B = b + 1 := ⟨B - 1, by omega⟩
    cases docs with
    | nil => rw [upsertBatches_nil]; rfl
    | cons x xs =>
      simp only [upsertBatches, List.flatten_cons]
      rw [ih ((x :: xs).drop (b + 1)) (by simp only [List.length_drop, List.length_cons]; simp only [List.length_cons] at h; omega)]
      exact List.take_append_drop (b + 1) (x :: xs)

theorem upsertBatches_sizes {α : Type} (B : Nat) (hB : 0 < B) :
    ∀ (n : Nat) (docs : List α), docs.length ≤ n →
      ∀ batch ∈ upsertBatches docs B, batch.length ≤ B := by
  intro n
  induction n with
  | zero =>
    intro docs h batch hmem
    have hnil : docs = [] := List.eq_nil_of_length_eq_zero (by omega)
    subst hnil
    rw [upsertBatches_nil] at hmem
    simp at hmem
  | succ n ih =>
    intro docs h batch hmem
    obtain ⟨b, rfl⟩ : ∃ b, B = b + 1 := ⟨B - 1, by omega⟩
    cases docs with
    | nil => rw [upsertBatches_nil] at hmem; simp at hmem
    | cons x xs =>
      simp only [upsertBatches] at hmem
      rcases List.mem_cons.mp hmem with rfl | hmem2
      · rw [List.length_take]; omega
      · exact ih ((x :: xs).drop (b + 1)) (by simp only [List.length_drop, List.length_cons]; simp only [List.length_cons] at h; omega) batch hmem2

theorem upsertBatches_full {α : Type} (B : Nat) (hB : 0 < B) :
    ∀ (n : Nat) (docs : List α), docs.length ≤ n →
      ∀ batch ∈ (upsertBatches docs B).dropLast, batch.length = B := by
  intro n
  induction n with
  | zero =>
    intro docs h batch hmem
    have hnil : docs = [] := List.eq_nil_of_length_eq_zero (by omega)
    subst hnil
    rw [upsertBatches_nil] at hmem
    simp at hmem
  | succ n ih =>
    intro docs h batch hmem
    obtain ⟨b, rfl⟩ : ∃ b, B = b + 1 := ⟨B - 1, by omega⟩
    cases docs with
    | nil => rw [upsertBatches_nil] at hmem; simp at hmem
    | cons x xs =>
      simp only [upsertBatches] at hmem
      cases hrest : upsertBatches ((x :: xs).drop (b + 1)) (b + 1) with
      | nil => rw [hrest] at hmem; simp at hmem
      | cons r rs =>
        rw [hrest, List.dropLast_cons₂] at hmem
        rcases List.mem_cons.mp hmem with rfl | hmem2
        · have hne : (x :: xs).drop (b + 1) ≠ [] := by
            intro he
            rw [he, upsertBatches_nil] at hrest
            exact List.cons_ne_nil r rs hrest.symm
          have hlen : b + 1 ≤ (x :: xs).length := by
            by_contra hcon
            exact hne (List.drop_eq_nil_of_le (by omega))
          rw [List.length_take]
          omega
        · refine ih ((x :: xs).drop (b + 1)) (by simp only [List.length_drop, List.length_cons]; simp only [List.length_cons] at h; omega) batch ?_
          rw [hrest]
          exact hmem2

theorem runUpserts_all_ok {α : Type} :
    ∀ (bs : List (List α)) (idx acc : Nat),
      (runUpserts (fun _ => (Except.ok Option.none : Except Unit (Option Nat)))
        bs idx acc).sent = bs := by
  intro bs
  induction bs with
  | nil => intro idx acc; simp [runUpserts]
  | cons b bs ih => intro idx acc; simp [runUpserts, ih]

/-- C2: for a chunk sequence of length N and a positive batch size B, the
upsert loop forms exactly the ceiling of N over B batches, each of at most B
documents with only the last possibly smaller, whose concatenation in request
order is exactly the original document sequence, and it issues one upsert
request per batch. -/
theorem batch_upsert_partitions {α : Type} (docs : List α) (B : Nat) (hB : 0 < B) :
    (upsertBatches docs B).length = (docs.length + B - 1) / B ∧
    (∀ batch ∈ upsertBatches docs B, batch.length ≤ B) ∧
    (∀ batch ∈ (upsertBatches docs B).dropLast, batch.length = B) ∧
    (upsertBatches docs B).flatten = docs ∧
    (runUpserts (fun _ => (Except.ok Option.none : Except Unit (Option Nat)))
        (upsertBatches docs B) 0 0).sent = upsertBatches docs B :=
  ⟨upsertBatches_length B hB docs.length docs le_rfl,
   upsertBatches_sizes B hB docs.length docs le_rfl,
   upsertBatches_full B hB docs.length docs le_rfl,
   upsertBatches_flatten B hB docs.length docs le_rfl,
   runUpserts_all_ok (upsertBatches docs B) 0 0⟩

/-- Witness for C2 on a seven-document sequence with batch size three, which
partitions into batches of sizes three, three and one. -/
theorem batch_upsert_partitions_witness :
    0 < 3 ∧
    ((upsertBatches [0, 1, 2, 3, 4, 5, 6] 3).length
        = ([0, 1, 2, 3, 4, 5, 6].length + 3 - 1) / 3 ∧
     (∀ batch ∈ upsertBatches [0, 1, 2, 3, 4, 5, 6] 3, batch.length ≤ 3) ∧
     (∀ batch ∈ (upsertBatches [0, 1, 2, 3, 4, 5, 6] 3).dropLast, batch.length = 3) ∧
     (upsertBatches [0, 1, 2, 3, 4, 5, 6] 3).flatten = [0, 1, 2, 3, 4, 5, 6] ∧
     (runUpserts (fun _ => (Except.ok Option.none : Except Unit (Option Nat)))
         (upsertBatches [0, 1, 2, 3, 4, 5, 6] 3) 0 0).sent
        = upsertBatches [0, 1, 2, 3, 4, 5, 6] 3) :=
  ⟨by decide, batch_upsert_partitions [0, 1, 2, 3, 4, 5, 6] 3 (by decide)⟩

theorem runUpserts_error_at {α ε : Type} (reply : Nat → Except ε (Option Nat)) (e : ε) :
    ∀ (bs : List (List α)) (k idx acc : Nat), 1 ≤ k → k ≤ bs.length →
      (∀ j, j < k - 1 → isOkReply (reply (idx + j)) = true) →
      reply (idx + (k - 1)) = Except.error e →
      runUpserts reply bs idx acc = ⟨bs.take k, Except.error e⟩ := by
  intro bs
  induction bs with
  | nil =>
    intro k idx acc h1 h2 _ _
    simp at h2
    omega
  | cons b bs ih =>
    intro k idx acc h1 h2 hok herr
    obtain ⟨k2, rfl⟩ : ∃ k2, k = k2 + 1 := ⟨k - 1, by omega⟩
    cases k2 with
    | zero =>
      rw [show idx + (0 + 1 - 1) = idx from by omega] at herr
      simp [runUpserts, herr]
    | succ k3 =>
      have h0 : isOkReply (reply (idx + 0)) = true := hok 0 (by omega)
      rw [show idx + 0 = idx from rfl] at h0
      cases hr : reply idx with
      | error e2 => rw [hr] at h0; simp [isOkReply] at h0
      | ok r =>
        simp only [runUpserts, hr]
        have hok2 : ∀ j, j < (k3 + 1) - 1 → isOkReply (reply ((idx + 1) + j)) = true := by
          intro j hj
          have h := hok (j + 1) (by omega)
          rw [show idx + (j + 1) = (idx + 1) + j from by omega] at h
          exact h
        have herr2 : reply ((idx + 1) + ((k3 + 1) - 1)) = Except.error e := by
          have h := herr
          rw [show idx + (k3 + 1 + 1 - 1) = (idx + 1) + ((k3 + 1) - 1) from by omega] at h
          exact h
        have hrec := ih (k3 + 1) (idx + 1) (acc + r.getD b.length) (by omega)
          (by simpa using h2) hok2 herr2
        rw [hrec]
        simp [List.take_succ_cons]

/-- C3: when the request for batch k fails and the first k-1 requests
succeed, the whole upsert phase fails with that same error: exactly the first
k batches were transmitted — the later batches are never attempted and the
earlier writes stand, with no compensating request — and the outcome is the
bare error, carrying no partial-insertion count. -/
theorem upsert_fail_fast {α ε : Type} (reply : Nat → Except ε (Option Nat))
    (bs : List (List α)) (k : Nat) (e : ε) (hk : 1 ≤ k) (hlen : k ≤ bs.length)
    (hok : ∀ j, j < k - 1 → isOkReply (reply j) = true)
    (herr : reply (k - 1) = Except.error e) :
    (runUpserts reply bs 0 0).sent = bs.take k ∧
    (runUpserts reply bs 0 0).result = Except.error e ∧
    ∀ m : Nat, (runUpserts reply bs 0 0).result ≠ Except.ok m := by
  have h := runUpserts_error_at reply e bs k 0 0 hk hlen (by simpa using hok)
    (by simpa using herr)
  rw [h]
  refine ⟨rfl, rfl, ?_⟩
  intro m hcon
  simp at hcon

/-- Witness for C3: three batches, the second request fails; only the first
two batches are transmitted and the run ends with that error. -/
theorem upsert_fail_fast_witness :
    (1 ≤ 2 ∧ 2 ≤ ([[0, 1], [2, 3], [4]] : List (List Nat)).length) ∧
    ((runUpserts (fun j => if j = 1 then (Except.error 7) else (Except.ok (some 2)))
        [[0, 1], [2, 3], [4]] 0 0).sent = ([[0, 1], [2, 3], [4]] : List (List Nat)).take 2 ∧
     (runUpserts (fun j => if j = 1 then (Except.error 7) else (Except.ok (some 2)))
        [[0, 1], [2, 3], [4]] 0 0).result = Except.error 7 ∧
     ∀ m : Nat,
       (runUpserts (fun j => if j = 1 then (Except.error 7) else (Except.ok (some 2)))
          [[0, 1], [2, 3], [4]] 0 0).result ≠ Except.ok m) :=
  ⟨⟨by decide, by decide⟩,
   upsert_fail_fast (fun j => if j = 1 then (Except.error 7) else (Except.ok (some 2)))
     [[0, 1], [2, 3], [4]] 2 7 (by decide) (by decide) (by decide) (by rfl)⟩

theorem getD_str (fields : List (String × Json)) (k : String)
    (h : isStrOrAbsent fields k = true) :
    dictGetD fields k (Json.str "") = Json.str (getStrD fields k ("")) := by
  cases hl : jlookup k fields with
  | none => simp [dictGetD, getStrD, hl]
  | some v =>
    cases v with
    | str s => simp [dictGetD, getStrD, hl]
    | null => simp [isStrOrAbsent, hl] at h
    | bool b => simp [isStrOrAbsent, hl] at h
    | num n => simp [isStrOrAbsent, hl] at h
    | arr elems => simp [isStrOrAbsent, hl] at h
    | obj ofields => simp [isStrOrAbsent, hl] at h

theorem por_get_str (fields : List (String × Json)) (k : String) (X : Json)
    (h : isStrOrAbsent fields k = true) :
    por (dictGet fields k) X
      = if getStrD fields k ("") = "" then X else Json.str (getStrD fields k ("")) := by
  cases hl : jlookup k fields with
  | none => simp [por, dictGet, getStrD, truthy, hl]
  | some v =>
    cases v with
    | str s =>
      by_cases hs : s = ""
      · simp [por, dictGet, getStrD, truthy, hl, hs]
      · simp [por, dictGet, getStrD, truthy, hl, hs]
    | null => simp [isStrOrAbsent, hl] at h
    | bool b => simp [isStrOrAbsent, hl] at h
    | num n => simp [isStrOrAbsent, hl] at h
    | arr elems => simp [isStrOrAbsent, hl] at h
    | obj ofields => simp [isStrOrAbsent, hl] at h

theorem rawMarkdownField_eq (fields : List (String × Json))
    (h1 : isStrOrAbsent fields ("md") = true)
    (h2 : isStrOrAbsent fields ("markdown") = true)
    (h3 : isStrOrAbsent fields ("content") = true) :
    rawMarkdownField fields =
      Json.str (if getStrD fields ("md") ("") = "" then
          (if getStrD fields ("markdown") ("") = "" then getStrD fields ("content") ("")
           else getStrD fields ("markdown") (""))
        else getStrD fields ("md") ("")) := by
  unfold rawMarkdownField
  rw [getD_str fields ("content") h3, por_get_str fields ("markdown") _ h2,
      por_get_str fields ("md") _ h1]
  by_cases ha : getStrD fields ("md") ("") = "" <;>
    by_cases hb : getStrD fields ("markdown") ("") = "" <;> simp [ha, hb]

theorem find?_nonempty_cons (x : String) (rest : List String) :
    (x :: rest).find? (fun s => !(s == ""))
      = if x = "" then rest.find? (fun s => !(s == "")) else some x := by
  by_cases hx : x = ""
  · rw [if_pos hx, List.find?_cons_of_neg]
    simp [hx]
  · rw [if_neg hx, List.find?_cons_of_pos]
    simp [hx]

theorem orderedFallback_eq (fields : List (String × Json)) :
    orderedFallback fields =
      (if getStrD fields ("md") ("") = "" then
        (if getStrD fields ("markdown") ("") = "" then
          (if getStrD fields ("content") ("") = "" then docMdField fields
           else getStrD fields ("content") (""))
         else getStrD fields ("markdown") (""))
       else getStrD fields ("md") ("")) := by
  unfold orderedFallback
  by_cases ha : getStrD fields ("md") ("") = "" <;>
    by_cases hb : getStrD fields ("markdown") ("") = "" <;>
    by_cases hc : getStrD fields ("content") ("") = "" <;>
    by_cases hd : docMdField fields = "" <;>
    simp [find?_nonempty_cons, ha, hb, hc, hd]

/-- C4: on mapping payloads whose candidate fields are text, the extraction
of convert_document coincides with the ordered fallback search of the
specification — the direct content keys md, markdown, content first, then the
nested document md key, first non-empty text wins, empty text when no
candidate matches. In particular a payload holding only document.md = hello
normalizes to hello, and the empty payload normalizes to the empty string
without failing. -/
theorem fetchResult_ordered_fallback :
    (∀ fields : List (String × Json),
      isStrOrAbsent fields ("md") = true →
      isStrOrAbsent fields ("markdown") = true →
      isStrOrAbsent fields ("content") = true →
      documentOk fields = true →
      extractMarkdown (Json.obj fields) = Except.ok (Json.str (orderedFallback fields))) ∧
    extractMarkdown (Json.obj [("document", Json.obj [("md", Json.str ("hello"))])])
      = Except.ok (Json.str ("hello")) ∧
    extractMarkdown (Json.obj []) = Except.ok (Json.str ("")) := by
  refine ⟨?_, by rfl, by rfl⟩
  intro fields h1 h2 h3 h4
  have hraw := rawMarkdownField_eq fields h1 h2 h3
  simp only [extractMarkdown, hraw, orderedFallback_eq fields]
  by_cases ha : getStrD fields ("md") ("") = ""
  · by_cases hb : getStrD fields ("markdown") ("") = ""
    · by_cases hc : getStrD fields ("content") ("") = ""
      · cases hdoc : jlookup ("document") fields with
        | none => simp [truthy, hdoc, ha, hb, hc, docMdField]
        | some v =>
          cases v with
          | obj dfields =>
            have h5 : isStrOrAbsent dfields ("md") = true := by
              have h := h4
              simp [documentOk, hdoc] at h
              exact h
            simp [truthy, hdoc, ha, hb, hc, docMdField, getD_str dfields ("md") h5]
          | null => simp [documentOk, hdoc] at h4
          | bool b => simp [documentOk, hdoc] at h4
          | num n => simp [documentOk, hdoc] at h4
          | str st => simp [documentOk, hdoc] at h4
          | arr elems => simp [documentOk, hdoc] at h4
      · simp [truthy, ha, hb, hc]
    · simp [truthy, ha, hb]
  · simp [truthy, ha]

/-- Witness for C4 on the specification example payload, a mapping holding
only document.md = hello. -/
theorem fetchResult_ordered_fallback_witness :
    (isStrOrAbsent [("document", Json.obj [("md", Json.str ("hello"))])] ("md") = true ∧
     documentOk [("document", Json.obj [("md", Json.str ("hello"))])] = true) ∧
    extractMarkdown (Json.obj [("document", Json.obj [("md", Json.str ("hello"))])])
      = Except.ok
          (Json.str (orderedFallback [("document", Json.obj [("md", Json.str ("hello"))])])) :=
  ⟨⟨by decide, by decide⟩,
   fetchResult_ordered_fallback.1 [("document", Json.obj [("md", Json.str ("hello"))])]
     (by decide) (by decide) (by decide) (by decide)⟩

/-- C10: a non-mapping result payload is normalized to the str rendering of
the whole payload, possibly non-empty, with no error, and the key-fallback
search plays no role there; for example the payload 5 normalizes to the text
5, which is not empty. -/
theorem nonmapping_payload_str :
    (∀ payload : Json, isObj payload = false →
      extractMarkdown payload = Except.ok (Json.str (pyStr payload))) ∧
    extractMarkdown (Json.num 5) = Except.ok (Json.str ("5")) ∧
    pyStr (Json.num 5) ≠ "" := by
  refine ⟨?_, by rfl, by decide⟩
  intro payload hobj
  cases payload <;> simp_all [extractMarkdown, isObj]

/-- Witness for C10 on a bare-string payload. -/
theorem nonmapping_payload_str_witness :
    isObj (Json.str ("hi")) = false ∧
    extractMarkdown (Json.str ("hi")) = Except.ok (Json.str (pyStr (Json.str ("hi")))) :=
  ⟨by decide, nonmapping_payload_str.1 (Json.str ("hi")) (by decide)⟩

/-- C7: the plan stage transmits the input text truncated to at most 8000
characters — the full text unchanged when it fits, exactly the first 8000
characters when it is longer. -/
theorem plan_sample_truncation (markdown_text : List Char) (file_name : String) :
    (generate_plan_request markdown_text file_name).text.length ≤ 8000 ∧
    (markdown_text.length ≤ 8000 →
      (generate_plan_request markdown_text file_name).text = markdown_text) ∧
    (8000 < markdown_text.length →
      (generate_plan_request markdown_text file_name).text = markdown_text.take 8000 ∧
      (generate_plan_request markdown_text file_name).text.length = 8000) := by
  refine ⟨?_, ?_, ?_⟩
  · by_cases h : markdown_text.length > 8000
    · simp only [generate_plan_request, planSample, if_pos h, List.length_take]
      omega
    · simp only [generate_plan_request, planSample, if_neg h]
      omega
  · intro hle
    have h : ¬ markdown_text.length > 8000 := by omega
    simp only [generate_plan_request, planSample, if_neg h]
  · intro hgt
    constructor
    · simp only [generate_plan_request, planSample, if_pos hgt]
    · simp only [generate_plan_request, planSample, if_pos hgt, List.length_take]
      omega

/-- Witness for C7 on a ten-thousand-character text: exactly the first 8000
characters are transmitted. -/
theorem plan_sample_truncation_witness :
    8000 < (List.replicate 10000 'a').length ∧
    (generate_plan_request (List.replicate 10000 'a') ("document.pdf")).text
      = (List.replicate 10000 'a').take 8000 ∧
    (generate_plan_request (List.replicate 10000 'a') ("document.pdf")).text.length = 8000 :=
  ⟨by norm_num [List.length_replicate],
   (plan_sample_truncation (List.replicate 10000 'a') ("document.pdf")).2.2
     (by norm_num [List.length_replicate])⟩

/-- C6: in every valid execution order of the pipeline the query stage runs
only after the store stage, although it consumes no store output: the
constraint is the explicit after edge, not a data dependency. -/
theorem query_after_store :
    (∀ order : List Stage, validSchedule order = true →
      order.indexOf Stage.store < order.indexOf Stage.query) ∧
    Stage.store ∉ dataDeps Stage.query ∧
    Stage.store ∈ explicitAfter Stage.query := by
  refine ⟨?_, by decide, by decide⟩
  intro order h
  unfold validSchedule at h
  rw [Bool.and_eq_true] at h
  have h2 := h.2
  rw [List.all_eq_true] at h2
  have hq := h2 Stage.query (by decide)
  rw [List.all_eq_true] at hq
  exact of_decide_eq_true (hq Stage.store (by decide))

/-- Witness for C6 on the sequential schedule of the stages. -/
theorem query_after_store_witness :
    validSchedule [Stage.convert, Stage.plan, Stage.chunk, Stage.store, Stage.query] = true ∧
    ([Stage.convert, Stage.plan, Stage.chunk, Stage.store, Stage.query].indexOf Stage.store
      < [Stage.convert, Stage.plan, Stage.chunk, Stage.store, Stage.query].indexOf Stage.query) :=
  ⟨by decide,
   query_after_store.1 [Stage.convert, Stage.plan, Stage.chunk, Stage.store, Stage.query]
     (by decide)⟩

/-- Refutation for C9: the chunk stage does not depend only on the convert
stage — the wiring passes the plan output into chunk_text, so plan is among
the data dependencies of chunk. -/
theorem chunk_depends_on_plan :
    Stage.plan ∈ dataDeps Stage.chunk ∧ dataDeps Stage.chunk ≠ [Stage.convert] := by
  decide

/-- C9 amended: plan depends only on convert, chunk depends on convert and
plan; hence plan may start once convert completes, but chunk is ordered
after plan in every valid execution order. -/
theorem plan_chunk_dependencies :
    dataDeps Stage.plan = [Stage.convert] ∧
    dataDeps Stage.chunk = [Stage.convert, Stage.plan] ∧
    ∀ order : List Stage, validSchedule order = true →
      order.indexOf Stage.plan < order.indexOf Stage.chunk := by
  refine ⟨by decide, by decide, ?_⟩
  intro order h
  unfold validSchedule at h
  rw [Bool.and_eq_true] at h
  have h2 := h.2
  rw [List.all_eq_true] at h2
  have hc := h2 Stage.chunk (by decide)
  rw [List.all_eq_true] at hc
  exact of_decide_eq_true (hc Stage.plan (by decide))

/-- Witness for the amended C9 on the sequential schedule. -/
theorem plan_chunk_dependencies_witness :
    validSchedule [Stage.convert, Stage.plan, Stage.chunk, Stage.store, Stage.query] = true ∧
    ([Stage.convert, Stage.plan, Stage.chunk, Stage.store, Stage.query].indexOf Stage.plan
      < [Stage.convert, Stage.plan, Stage.chunk, Stage.store, Stage.query].indexOf Stage.chunk) :=
  ⟨by decide,
   plan_chunk_dependencies.2.2
     [Stage.convert, Stage.plan, Stage.chunk, Stage.store, Stage.query] (by decide)⟩

/-- Refutation for C8: the query stage does not bound the hit list by top_k.
A gateway response carrying two hits against a request with top_k one is
returned whole: the length bound fails. -/
theorem query_hits_can_exceed_topk :
    test_query (fun _ => Json.obj [("hits", Json.arr [Json.obj [], Json.obj []])])
        ("What is this document about?") ("example_docs") 1
      = some [Json.obj [], Json.obj []] ∧
    ¬ ([Json.obj [], Json.obj []] : List Json).length ≤ 1 :=
  ⟨rfl, by decide⟩

/-- C8 amended: the query stage returns exactly the hits sequence of the
search response, in server order; its length is bounded by top_k exactly
when the response itself carries at most top_k hits — the stage performs no
truncation of its own. -/
theorem query_hits_bounded_when_server_honors
    (gateway : SearchRequest → Json) (query collection : String) (top_k : Nat)
    (hits : List Json)
    (hresp : searchHits (gateway ⟨query, collection, top_k⟩) = some hits)
    (hbound : hits.length ≤ top_k) :
    test_query gateway query collection top_k = some hits ∧
    ∀ l : List Json, test_query gateway query collection top_k = some l →
      l.length ≤ top_k := by
  constructor
  · unfold test_query
    exact hresp
  · intro l hl
    unfold test_query at hl
    rw [hresp] at hl
    injection hl with h
    subst h
    exact hbound

/-- Witness for the amended C8 on a response honoring top_k. -/
theorem query_hits_bounded_when_server_honors_witness :
    searchHits ((fun _ => Json.obj [("hits", Json.arr [Json.obj []])])
        (⟨("What is this document about?"), ("example_docs"), 5⟩ : SearchRequest))
      = some [Json.obj []] ∧
    ([Json.obj []] : List Json).length ≤ 5 ∧
    test_query (fun _ => Json.obj [("hits", Json.arr [Json.obj []])])
        ("What is this document about?") ("example_docs") 5 = some [Json.obj []] :=
  ⟨rfl, by decide,
   (query_hits_bounded_when_server_honors
      (fun _ => Json.obj [("hits", Json.arr [Json.obj []])])
      ("What is this document about?") ("example_docs") 5 [Json.obj []] rfl
      (by decide)).1⟩

end RagPipeline
